import Mathlib

/-
  Verification development for the DocuChat repository (frontend sources and
  the spec of the backend RAG pipeline).  Each definition is a shallow
  embedding of a function of the repository; the section comments name the
  source file the definition is taken from.
-/

namespace DocuChat

/-
  Part 1: definitions.
-/

/-
  SSE chat stream client, from src/frontend/src/utils/api.js, sendChatMessage
  (lines 121-191).  The network layer (fetch, reader, line buffering) is
  abstracted: a stream is the list of JSON frames carried by the successive
  lines that start with the marker prefix, in arrival order.  Each frame is
  the parsed JSON object; an absent content field is modelled as the empty
  string (the code only tests the field for JS truthiness, and for strings
  truthiness is non-emptiness).
-/

/-- Frame carried by one SSE data line of the chat stream, as parsed by
JSON.parse in sendChatMessage. -/
structure Frame where
  type : String
  content : String
deriving DecidableEq, Repr

/-- Action the per-line dispatch of sendChatMessage takes on one frame:
skip the frame, finish the whole call (the return statement for a done
frame), or emit the content to the onChunk callback. -/
inductive FrameAction where
  | skip
  | finish
  | emit (content : String)
deriving DecidableEq, Repr

/-- Body of the try block of sendChatMessage for one parsed frame
(api.js lines 165-181).  A start frame and an end frame are skipped via
continue; an error frame executes throw new Error(parsed.content), modelled
as Except.error with the content of the frame; a done frame returns from the
function; otherwise a frame with truthy content is forwarded to onChunk and
any other frame is skipped. -/
def frameTryBody (f : Frame) : Except String FrameAction :=
  if f.type = "start" then .ok .skip
  else if f.type = "end" then .ok .skip
  else if f.type = "error" then .error f.content
  else if f.type = "done" then .ok .finish
  else if f.content ≠ "" then .ok (.emit f.content)
  else .ok .skip

/-- Frame handling including the surrounding catch (parseError) block
(api.js lines 182-184): any exception thrown inside the try block, including
the explicit throw for a frame of type error, is caught there, logged with
console.warn, and the loop continues with the next line. -/
def handleFrame (f : Frame) : FrameAction :=
  match frameTryBody f with
  | .error _ => .skip
  | .ok a => a

/-- Whole stream-reading loop of sendChatMessage over the frames of the
stream.  Returns the list of strings passed to onChunk, in call order, and
whether the loop ended through the return for a done frame (true) or
through exhaustion of the stream (false).  In either case the promise
resolves; no frame can make it reject, because the only throw inside the
loop is caught by the parse catch (see handleFrame). -/
def processFrames : List Frame → List String × Bool
  | [] => ([], false)
  | f :: rest =>
    match handleFrame f with
    | .finish => ([], true)
    | .skip => processFrames rest
    | .emit s => (s :: (processFrames rest).1, (processFrames rest).2)

/-- Prefix of the stream strictly before the first frame of type done. -/
def upToFirstDone : List Frame → List Frame
  | [] => []
  | f :: rest => if f.type = "done" then [] else f :: upToFirstDone rest

/-- Predicate on a frame describing exactly when the code forwards it to
onChunk: its type is none of start, end, error, done and its content is
non-empty. -/
def emitsChunk (f : Frame) : Bool :=
  f.type != "start" && f.type != "end" && f.type != "error" && f.type != "done"
    && f.content != ""

/-- Contents forwarded to onChunk according to the code: the content of
every emitting frame before the first done frame, in stream order. -/
def specEmittedContents (frames : List Frame) : List String :=
  (upToFirstDone frames).filterMap (fun f => if emitsChunk f then some f.content else none)

/-- True when the stream contains a frame of type done. -/
def hasDoneFrame (frames : List Frame) : Bool :=
  frames.any (fun f => f.type == "done")

/-- Modelled from the words of claim C2 (refinement target, not from the
source): onChunk is invoked once per frame, before the first done frame,
that carries a non-empty content field and no terminal type, where the
terminal types per the spec are done and error. -/
def claimC2Contents (frames : List Frame) : List String :=
  (upToFirstDone frames).filterMap
    (fun f => if f.content != "" && f.type != "done" && f.type != "error"
              then some f.content else none)

/-
  Upload response shape, from src/frontend/src/types/index.js
  (FileUploadResponse, lines 22-26).  The object literal there is the shape
  of the POST /upload response as consumed by the frontend (uploadFiles in
  api.js returns response.data unchanged); we embed it as the list of its
  field names.
-/

/-- Field names of the FileUploadResponse object literal in
src/frontend/src/types/index.js. -/
def fileUploadResponseFields : List String := ["kb_id", "file_names", "message"]

/-
  Upload dropzone validation, from src/frontend/src/components/FileDropzone.jsx
  (ALLOWED_TYPES, MAX_FILE_SIZE, validateFile, handleFiles; lines 11-64).
-/

/-- The ALLOWED_TYPES table of FileDropzone.jsx: MIME type keys mapped to
extension values. -/
def ALLOWED_TYPES : List (String × String) :=
  [("application/pdf", ".pdf"),
   ("application/vnd.openxmlformats-officedocument.wordprocessingml.document", ".docx"),
   ("text/plain", ".txt"),
   ("application/vnd.openxmlformats-officedocument.presentationml.presentation", ".pptx"),
   ("text/csv", ".csv"),
   ("application/vnd.ms-excel", ".csv"),
   ("application/vnd.openxmlformats-officedocument.spreadsheetml.sheet", ".csv")]

/-- Maximum accepted file size of FileDropzone.jsx: 20 MB. -/
def MAX_FILE_SIZE : ℕ := 20 * 1024 * 1024

/-- File object offered to the dropzone: name, declared MIME type, and size
in bytes. -/
structure JSFile where
  name : String
  type : String
  size : ℕ
deriving DecidableEq, Repr

/-- JS String.prototype.lastIndexOf for a single character: the index of its
last occurrence, or -1 when absent. -/
def jsLastIndexOf (c : Char) (s : List Char) : Int :=
  match s.reverse.findIdx? (· == c) with
  | none => -1
  | some i => ((s.length - 1 - i : ℕ) : Int)

/-- JS String.prototype.slice with one argument: a negative start counts
from the end (clamped at 0), a start beyond the end yields the empty
string. -/
def jsSliceFrom (s : List Char) (i : Int) : List Char :=
  if i < 0 then s.drop (((s.length : Int) + i).toNat) else s.drop i.toNat

/-- Lowercased file name, JS file.name.toLowerCase(). -/
def lowercaseName (f : JSFile) : List Char := f.name.toList.map Char.toLower

/-- Extension string computed by validateFile:
file.name.toLowerCase().slice(file.name.lastIndexOf(hole)) with the dot
character. -/
def fileExt (f : JSFile) : List Char :=
  jsSliceFrom (lowercaseName f) (jsLastIndexOf '.' f.name.toList)

/-- Truthiness of ALLOWED_TYPES[file.type]: the MIME type is a key of the
table (all values of the table are non-empty strings, hence truthy). -/
def typeAllowed (f : JSFile) : Bool := ALLOWED_TYPES.any (fun p => p.1 == f.type)

/-- Object.values(ALLOWED_TYPES).includes(ext) for the computed extension. -/
def extAllowed (f : JSFile) : Bool := ALLOWED_TYPES.any (fun p => p.2.toList == fileExt f)

/-- The validateFile function of FileDropzone.jsx: pushes an unsupported-type
error when neither the MIME type is a key nor the extension a value of
ALLOWED_TYPES, then a size error when the size strictly exceeds
MAX_FILE_SIZE. -/
def validateFile (f : JSFile) : List String :=
  (if !typeAllowed f && !extAllowed f
   then [f.name ++ ": Unsupported file type. Allowed: PDF, DOCX, TXT, PPTX, CSV"]
   else [])
  ++ (if f.size > MAX_FILE_SIZE
      then [f.name ++ ": File too large. Maximum size: 20MB"]
      else [])

/-- The handleFiles callback of FileDropzone.jsx: iterates over the offered
files in order, pushing the validation errors of each rejected file onto
allErrors and each accepted file onto validFiles.  Returns
(allErrors, validFiles). -/
def handleFiles : List JSFile → List String × List JSFile
  | [] => ([], [])
  | f :: rest =>
    let es := validateFile f
    let r := handleFiles rest
    if es.length > 0 then (es ++ r.1, r.2) else (r.1, f :: r.2)

/-- Argument handleFiles passes to onFilesSelected: the accepted files when
there is at least one, otherwise no call is made (the code guards the call
with validFiles.length > 0). -/
def onFilesSelectedArg (files : List JSFile) : Option (List JSFile) :=
  if (handleFiles files).2.length > 0 then some (handleFiles files).2 else none

/-- Allowed extensions as enumerated by the spec: pdf, docx, txt, pptx,
csv. -/
def specAllowedExts : List (List Char) :=
  [".pdf".toList, ".docx".toList, ".txt".toList, ".pptx".toList, ".csv".toList]

/-
  Temperature handling.  The settings slider of
  src/frontend/src/components/ChatWindow.jsx (lines 105-113) is rendered
  with min 0, max 2, step 0.1, so the external slider component can produce
  only values min + k * step lying within [min, max]; sendChatMessage in
  src/frontend/src/utils/api.js (line 121) declares the default parameter
  temperature = 0.7, which JS applies when the caller passes no value.
  Temperatures are modelled as rationals.
-/

/-- Slider prop min of the temperature slider. -/
def sliderMin : ℚ := 0

/-- Slider prop max of the temperature slider. -/
def sliderMax : ℚ := 2

/-- Slider prop step of the temperature slider. -/
def sliderStep : ℚ := 1 / 10

/-- Value at the k-th step position of the temperature slider. -/
def sliderValue (k : ℕ) : ℚ := sliderMin + k * sliderStep

/-- Default temperature of sendChatMessage (and of sendMessage in the
useChat hook). -/
def defaultTemperature : ℚ := 7 / 10

/-- Temperature actually sent in the chat request body: the supplied value,
or the default parameter when the caller supplies none. -/
def sendChatMessageTemperature (t : Option ℚ) : ℚ := t.getD defaultTemperature

/-
  The useChat hook, from the unnamed source file holding it (sendMessage,
  lines 27-85; the file is src/unnamed/part_002 of this snapshot).  The React
  state cells (messages, isLoading, streamingMessage) are modelled as an
  explicit state record; the streaming network call is modelled by its
  observable outcome: either the promise resolved after delivering a list of
  chunks to onChunk, or it rejected after delivering some prefix of chunks.
-/

/-- Message record kept in the messages state of useChat.  Ids, timestamps
and the sources array do not matter to the claims and are omitted; a message
built without an isError field has isError false (JS undefined is falsy). -/
structure ChatMsg where
  content : String
  role : String
  isError : Bool
deriving DecidableEq, Repr

/-- State cells of the useChat hook. -/
structure ChatState where
  messages : List ChatMsg
  isLoading : Bool
  streamingMessage : String
deriving DecidableEq, Repr

/-- Observable outcome of the awaited sendChatMessage call: the chunks
delivered to onChunk before the promise settled, and whether it resolved or
rejected. -/
inductive StreamResult where
  | resolved (chunks : List String)
  | rejected (chunks : List String) (errMsg : String)
deriving DecidableEq, Repr

/-- JS falsiness of the kbId argument of useChat: undefined, null or the
empty string. -/
def kbIdFalsy : Option String → Bool
  | none => true
  | some s => s == ""

/-- JS String.prototype.trim: remove leading and trailing whitespace. -/
def jsTrim (s : String) : String :=
  (((s.toList.dropWhile Char.isWhitespace).reverse.dropWhile
      Char.isWhitespace).reverse).asString

/-- Content of the assistant message appended on the error path of
sendMessage. -/
def errorReplyText : String :=
  "Sorry, I encountered an error while processing your message. Please try again."

/-- True when the stream result is a rejection. -/
def outcomeThrew : StreamResult → Bool
  | .resolved _ => false
  | .rejected _ _ => true

/-- Chunks delivered to onChunk before the promise settled. -/
def deliveredChunks : StreamResult → List String
  | .resolved chunks => chunks
  | .rejected chunks _ => chunks

/-- The sendMessage callback of useChat.  Returns the state after the call
settles together with a flag telling whether a chat request was issued.
The guard returns immediately when the trimmed content is empty or the kbId
is falsy.  Otherwise the trimmed user message is appended, isLoading is set
and streamingMessage cleared; each onChunk call sets streamingMessage to the
concatenation of the chunks so far; on resolution the assistant message
with the accumulated content is appended and streamingMessage cleared; on
rejection the fixed error reply is appended with isError true (the catch
block does not clear streamingMessage); finally isLoading is cleared. -/
def sendMessage (kbId : Option String) (content : String) (result : StreamResult)
    (s : ChatState) : ChatState × Bool :=
  if jsTrim content == "" || kbIdFalsy kbId then (s, false)
  else
    let afterUser : ChatState :=
      ⟨s.messages ++ [⟨jsTrim content, "user", false⟩], true, ""⟩
    match result with
    | .resolved chunks =>
        (⟨afterUser.messages ++ [⟨String.join chunks, "assistant", false⟩],
          false, ""⟩, true)
    | .rejected chunks _ =>
        (⟨afterUser.messages ++ [⟨errorReplyText, "assistant", true⟩],
          false, String.join chunks⟩, true)

/-
  The useTypewriter hook, from src/frontend/src/hooks/useTypewriter.js
  (lines 6-36), for a fixed non-empty text.  The interval callback is the
  step function; the state is the displayText and isComplete cells plus the
  captured index variable.
-/

/-- State of the typewriter effect: the displayText cell, the isComplete
cell, and the index variable captured by the interval closure. -/
structure TWState where
  display : List Char
  complete : Bool
  index : ℕ
deriving DecidableEq, Repr

/-- Initial typewriter state set by the effect before the interval starts. -/
def twInit : TWState := ⟨[], false, 0⟩

/-- One tick of the interval callback: while index < text.length it shows
one more character and advances index, afterwards it sets isComplete. -/
def twStep (text : List Char) (s : TWState) : TWState :=
  if s.index < text.length then
    ⟨text.take (s.index + 1), s.complete, s.index + 1⟩
  else
    ⟨s.display, true, s.index⟩

/-- Typewriter state after n ticks of the interval. -/
def twIter (text : List Char) : ℕ → TWState
  | 0 => twInit
  | n + 1 => twStep text (twIter text n)

/-
  Text splitter of the backend ingestion pipeline.  The backend sources are
  not part of this snapshot (only the frontend is under src/), so the
  splitter is modelled from the spec, section 4.2.
-/

/-- Modelled from the spec: recursion body of the backend Text Splitter,
which is absent from the source snapshot.  Given target chunk size and
overlap (characters), an input no longer than one chunk size is one chunk;
otherwise the first chunk is the first chunkSize characters and the rest of
the chunks are produced from the input shifted by chunkSize - overlap
characters, so each chunk ends where the next begins minus the overlap.
The fuel argument bounds the recursion; length of the input is always
enough fuel when overlap < chunkSize. -/
def splitTextGo (chunkSize overlap : ℕ) : ℕ → List Char → List (List Char)
  | 0, t => [t]
  | fuel + 1, t =>
    if t.length ≤ chunkSize then [t]
    else t.take chunkSize :: splitTextGo chunkSize overlap fuel (t.drop (chunkSize - overlap))

/-- Modelled from the spec: the backend Text Splitter (spec section 4.2),
absent from the source snapshot. -/
def splitText (chunkSize overlap : ℕ) (t : List Char) : List (List Char) :=
  splitTextGo chunkSize overlap t.length t

/-- Concatenation of a chunk sequence with the overlapping region of each
successive chunk removed: the first chunk whole, every later chunk without
its first overlap characters. -/
def removeOverlaps (overlap : ℕ) : List (List Char) → List Char
  | [] => []
  | c :: rest => c ++ (rest.map (List.drop overlap)).flatten

/-
  Message formatting, from src/frontend/src/components/MessageBubble.jsx
  (formatContent, lines 27-34): four chained global regex replacements, for
  double-star pairs, single-star pairs, backtick pairs and newlines.  The
  pair replacements scan left to right; at a position where the opening
  token matches, the shortest newline-free middle followed by the closing
  token is captured (the lazy dot of the regex does not cross newlines) and
  wrapped; if no close follows, the scan moves one character right.
-/

/-- Lazy middle of a pair regex: the shortest newline-free prefix after
which the closing token occurs.  Returns the middle and the remainder after
the closing token. -/
def matchLazy (close : List Char) : List Char → Option (List Char × List Char)
  | [] => none
  | c :: cs =>
    if close.isPrefixOf (c :: cs) then some ([], (c :: cs).drop close.length)
    else if c = '\n' then none
    else
      match matchLazy close cs with
      | some (mid, rest) => some (c :: mid, rest)
      | none => none

/-- Global replacement of one pair pattern: opening token o :: orest, closing
token close, replacement wrapping wl and wr around the captured middle.  The
fuel argument bounds the recursion; the length of the input is always
enough, since every step consumes at least one character. -/
def replacePairsGo (o : Char) (orest close wl wr : List Char) : ℕ → List Char → List Char
  | 0, l => l
  | _ + 1, [] => []
  | fuel + 1, c :: cs =>
    if (o :: orest).isPrefixOf (c :: cs) then
      match matchLazy close ((c :: cs).drop (o :: orest).length) with
      | some (mid, rest) => wl ++ mid ++ wr ++ replacePairsGo o orest close wl wr fuel rest
      | none => c :: replacePairsGo o orest close wl wr fuel cs
    else c :: replacePairsGo o orest close wl wr fuel cs

/-- Global replacement of one pair pattern over a whole string. -/
def replacePairs (o : Char) (orest close wl wr : List Char) (l : List Char) : List Char :=
  replacePairsGo o orest close wl wr l.length l

/-- Global replacement of newlines by the br tag, the fourth replace of
formatContent. -/
def replaceNewlines : List Char → List Char
  | [] => []
  | c :: cs =>
    if c = '\n' then "<br />".toList ++ replaceNewlines cs
    else c :: replaceNewlines cs

/-- The formatContent function of MessageBubble.jsx: double-star pairs
become strong tags, then single-star pairs become em tags, then backtick
pairs become code tags, then newlines become br tags. -/
def formatContent (s : List Char) : List Char :=
  replaceNewlines
    (replacePairs '`' [] ['`']
      "<code class=\"bg-muted px-1 py-0.5 rounded text-sm\">".toList "</code>".toList
      (replacePairs '*' [] ['*'] "<em>".toList "</em>".toList
        (replacePairs '*' ['*'] ['*', '*'] "<strong>".toList "</strong>".toList s)))

end DocuChat

namespace DocuChat

/-
  Part 2: theorems.
-/

/-- Helper: unfolding of processFrames on a cons cell. -/
theorem processFrames_cons (f : Frame) (rest : List Frame) :
    processFrames (f :: rest) =
      match handleFrame f with
      | .finish => ([], true)
      | .skip => processFrames rest
      | .emit s => (s :: (processFrames rest).1, (processFrames rest).2) := rfl

/-- Helper: case analysis of handleFrame through the if chain of the
try body. -/
theorem handleFrame_eq (f : Frame) :
    handleFrame f =
      if f.type = "start" then .skip
      else if f.type = "end" then .skip
      else if f.type = "error" then .skip
      else if f.type = "done" then .finish
      else if f.content ≠ "" then .emit f.content
      else .skip := by
  unfold handleFrame frameTryBody
  by_cases h1 : f.type = "start" <;> simp [h1]
  by_cases h2 : f.type = "end" <;> simp [h2]
  by_cases h3 : f.type = "error" <;> simp [h3]
  by_cases h4 : f.type = "done" <;> simp [h4]
  by_cases h5 : f.content = "" <;> simp [h5]

/-- C1: evaluation of the stream loop on a stream whose first frame is an
error frame.  The claim states the promise rejects with the content of the
error frame; instead the throw for the error frame is caught by the
JSON-parse catch block, which merely logs a warning, so processing
continues: the later content frame is still forwarded to onChunk and the
call completes normally through the done frame. -/
theorem sendChatMessage_error_frame_swallowed :
    processFrames [⟨"error", "boom"⟩, ⟨"content", "world"⟩, ⟨"done", ""⟩]
      = (["world"], true) := by decide

/-- C2 counterexample: on the well-formed one-frame stream whose frame has
type start and non-empty content, the claim (formalised by claimC2Contents:
one onChunk call per frame with non-empty content and no terminal type)
predicts one onChunk call, but the code skips start frames uncondition-
ally, so it makes none. -/
theorem processFrames_claim_counterexample :
    (processFrames [⟨"start", "x"⟩]).1 ≠ claimC2Contents [⟨"start", "x"⟩] := by
  decide

/-- C2 amended: for every stream of frames, the onChunk calls are exactly
the contents of the frames before the first done frame whose type is none
of start, end, error, done and whose content is non-empty, in stream order;
the call returns at the first done frame (and reports completion through it
exactly when one occurs), invoking onChunk for no frame after it. -/
theorem processFrames_spec (frames : List Frame) :
    processFrames frames = (specEmittedContents frames, hasDoneFrame frames) := by
  induction frames with
  | nil => rfl
  | cons f rest ih =>
    rw [processFrames_cons, handleFrame_eq]
    by_cases h1 : f.type = "start"
    · simp [h1, ih, specEmittedContents, upToFirstDone, emitsChunk, hasDoneFrame]
    · by_cases h2 : f.type = "end"
      · simp [h1, h2, ih, specEmittedContents, upToFirstDone, emitsChunk, hasDoneFrame]
      · by_cases h3 : f.type = "error"
        · simp [h1, h2, h3, ih, specEmittedContents, upToFirstDone, emitsChunk, hasDoneFrame]
        · by_cases h4 : f.type = "done"
          · simp [h1, h2, h3, h4, specEmittedContents, upToFirstDone, emitsChunk, hasDoneFrame]
          · by_cases h5 : f.content = ""
            · simp [h1, h2, h3, h4, h5, ih, specEmittedContents, upToFirstDone,
                emitsChunk, hasDoneFrame]
            · simp [h1, h2, h3, h4, h5, ih, specEmittedContents, upToFirstDone,
                emitsChunk, hasDoneFrame]

/-- C3 counterexample: the FileUploadResponse shape consumed by the frontend
carries no per-file status enumeration, under either naming convention of
the repository. -/
theorem uploadResponse_perFileStatus_counterexample :
    "perFileStatus" ∉ fileUploadResponseFields
      ∧ "per_file_status" ∉ fileUploadResponseFields := by decide

/-- C3 amended: the response to POST /upload, as consumed by the frontend,
contains the knowledge-base id, the file names and a message, and no
per-file success/failure enumeration. -/
theorem uploadResponseFields_spec :
    "kb_id" ∈ fileUploadResponseFields
      ∧ "file_names" ∈ fileUploadResponseFields
      ∧ "message" ∈ fileUploadResponseFields
      ∧ "perFileStatus" ∉ fileUploadResponseFields
      ∧ "per_file_status" ∉ fileUploadResponseFields := by decide

/-- Helper: the MIME-type lookup succeeds exactly when the type is a key of
ALLOWED_TYPES. -/
theorem typeAllowed_iff (f : JSFile) :
    typeAllowed f = true ↔ f.type ∈ ALLOWED_TYPES.map Prod.fst := by
  rw [typeAllowed, List.any_eq_true]
  simp only [beq_iff_eq, List.mem_map]

/-- Helper: the extension lookup succeeds exactly when the computed
extension is one of the five extensions the spec enumerates (the values of
ALLOWED_TYPES are those five strings, csv repeated). -/
theorem extAllowed_iff (f : JSFile) :
    extAllowed f = true ↔ fileExt f ∈ specAllowedExts := by
  rw [extAllowed, List.any_eq_true]
  constructor
  · rintro ⟨p, hp, he⟩
    rw [beq_iff_eq] at he
    rw [← he]
    simp only [ALLOWED_TYPES, List.mem_cons, List.not_mem_nil, or_false] at hp
    rcases hp with h | h | h | h | h | h | h <;> subst h <;>
      simp [specAllowedExts]
  · intro he
    simp only [specAllowedExts, List.mem_cons, List.not_mem_nil, or_false] at he
    rcases he with h | h | h | h | h
    · exact ⟨("application/pdf", ".pdf"), by simp [ALLOWED_TYPES], by rw [beq_iff_eq, h]⟩
    · exact ⟨("application/vnd.openxmlformats-officedocument.wordprocessingml.document", ".docx"),
        by simp [ALLOWED_TYPES], by rw [beq_iff_eq, h]⟩
    · exact ⟨("text/plain", ".txt"), by simp [ALLOWED_TYPES], by rw [beq_iff_eq, h]⟩
    · exact ⟨("application/vnd.openxmlformats-officedocument.presentationml.presentation", ".pptx"),
        by simp [ALLOWED_TYPES], by rw [beq_iff_eq, h]⟩
    · exact ⟨("text/csv", ".csv"), by simp [ALLOWED_TYPES], by rw [beq_iff_eq, h]⟩

/-- Helper: the accepted files of handleFiles are exactly the offered files
whose validation error list is empty, in order. -/
theorem handleFiles_snd (files : List JSFile) :
    (handleFiles files).2 = files.filter (fun g => (validateFile g).isEmpty) := by
  induction files with
  | nil => rfl
  | cons f rest ih =>
    simp only [handleFiles, List.filter_cons]
    by_cases h : validateFile f = []
    · simp [h, ih]
    · have hlen : (validateFile f).length > 0 := List.length_pos.mpr h
      have hne : (validateFile f).isEmpty = false := by
        simp [List.isEmpty_iff, h]
      simp [hlen, hne, ih]

/-- Helper: the recorded errors of handleFiles are the concatenation of the
validation errors of the offered files, in order. -/
theorem handleFiles_fst (files : List JSFile) :
    (handleFiles files).1 = (files.map validateFile).flatten := by
  induction files with
  | nil => rfl
  | cons f rest ih =>
    simp only [handleFiles, List.map_cons, List.flatten_cons]
    by_cases h : validateFile f = []
    · simp [h, ih]
    · have hlen : (validateFile f).length > 0 := List.length_pos.mpr h
      simp [hlen, ih]

/-- C4 counterexample: a file that is both of an unsupported type and
oversized is one rejected file but records two error entries, refuting the
one-entry-per-rejected-file part of the claim. -/
theorem validateFile_two_errors_counterexample :
    (handleFiles [⟨"big.exe", "application/octet-stream", 20971521⟩]).2 = []
      ∧ (handleFiles [⟨"big.exe", "application/octet-stream", 20971521⟩]).1.length = 2 := by
  decide

/-- C4 amended: validateFile returns a non-empty error list exactly when
the type/extension of the file is outside the allowed set or its size
strictly exceeds 20 MB, so a supported file of exactly 20 MB is accepted;
handleFiles accepts exactly the files with empty error list (calling
onFilesSelected with them only when at least one file is accepted) and
records the validation errors of the rejected files in order, one entry per
violated rule, so a file that is both unsupported and oversized records two
entries. -/
theorem validateFile_handleFiles_spec (f : JSFile) (files : List JSFile) :
    (validateFile f ≠ [] ↔
      (¬(f.type ∈ ALLOWED_TYPES.map Prod.fst ∨ fileExt f ∈ specAllowedExts)
        ∨ MAX_FILE_SIZE < f.size))
    ∧ ((f.type ∈ ALLOWED_TYPES.map Prod.fst ∨ fileExt f ∈ specAllowedExts) →
        f.size ≤ MAX_FILE_SIZE → validateFile f = [])
    ∧ (validateFile f).length =
        ((if typeAllowed f = false ∧ extAllowed f = false then 1 else 0)
          + (if MAX_FILE_SIZE < f.size then 1 else 0))
    ∧ (handleFiles files).2 = files.filter (fun g => (validateFile g).isEmpty)
    ∧ (handleFiles files).1 = (files.map validateFile).flatten
    ∧ onFilesSelectedArg files =
        (if files.filter (fun g => (validateFile g).isEmpty) = [] then none
         else some (files.filter (fun g => (validateFile g).isEmpty))) := by
  have hty := typeAllowed_iff f
  have hex := extAllowed_iff f
  refine ⟨?_, ?_, ?_, handleFiles_snd files, handleFiles_fst files, ?_⟩
  · rw [← hty, ← hex]
    by_cases h1 : typeAllowed f = true <;> by_cases h3 : MAX_FILE_SIZE < f.size <;>
      by_cases h2 : extAllowed f = true <;>
        simp [validateFile, h1, h2, h3]
  · rw [← hty, ← hex]
    intro hallow hsize
    have h3 : ¬ MAX_FILE_SIZE < f.size := not_lt.mpr hsize
    rcases hallow with h1 | h2
    · simp [validateFile, h1, h3]
    · simp [validateFile, h2, h3]
  · by_cases h1 : typeAllowed f = true <;> by_cases h3 : MAX_FILE_SIZE < f.size <;>
      by_cases h2 : extAllowed f = true <;>
        simp [validateFile, h1, h2, h3]
  · rw [onFilesSelectedArg, handleFiles_snd files]
    by_cases h : files.filter (fun g => (validateFile g).isEmpty) = []
    · simp [h]
    · have : (files.filter (fun g => (validateFile g).isEmpty)).length > 0 :=
        List.length_pos.mpr h
      simp [h, this]

/-- C4 witness: a pdf file of exactly 20 MB passes validation. -/
theorem validateFile_handleFiles_spec_witness :
    validateFile ⟨"doc.pdf", "application/pdf", 20971520⟩ = [] :=
  (validateFile_handleFiles_spec ⟨"doc.pdf", "application/pdf", 20971520⟩ []).2.1
    (Or.inl (by decide)) (by decide)

/-- C5: every value the temperature slider can produce lies in the interval
from 0 to 2, and when the caller supplies no temperature the chat request
carries the default 0.7 (a supplied temperature is forwarded unchanged). -/
theorem chatTemperature_spec :
    (∀ k : ℕ, sliderValue k ≤ sliderMax → 0 ≤ sliderValue k ∧ sliderValue k ≤ 2)
    ∧ sendChatMessageTemperature none = defaultTemperature
    ∧ defaultTemperature = 7 / 10
    ∧ ∀ q : ℚ, sendChatMessageTemperature (some q) = q := by
  refine ⟨?_, rfl, rfl, fun q => rfl⟩
  intro k hk
  refine ⟨?_, ?_⟩
  · unfold sliderValue sliderMin sliderStep
    positivity
  · simpa [sliderMax] using hk

/-- C5 witness: the topmost slider position yields temperature 2, inside
the interval. -/
theorem chatTemperature_spec_witness :
    0 ≤ sliderValue 20 ∧ sliderValue 20 ≤ 2 :=
  chatTemperature_spec.1 20
    (by norm_num [sliderValue, sliderMin, sliderStep, sliderMax])

/-- C6: sendMessage issues a chat request exactly when the trimmed content
is non-empty and a kbId is present, and on an empty or whitespace-only
content, or an absent kbId, it returns with the message list, the loading
flag and the streaming text unchanged. -/
theorem sendMessage_guard_spec (kbId : Option String) (content : String)
    (result : StreamResult) (s : ChatState) :
    ((sendMessage kbId content result s).2 = true ↔
      (jsTrim content ≠ "" ∧ kbIdFalsy kbId = false))
    ∧ ((jsTrim content = "" ∨ kbIdFalsy kbId = true) →
        sendMessage kbId content result s = (s, false)) := by
  unfold sendMessage
  by_cases h1 : jsTrim content = ""
  · simp [h1]
  · by_cases h2 : kbIdFalsy kbId = true
    · simp [h1, h2]
    · cases result <;> simp [h1, h2]

/-- C6 witness: a whitespace-only message with a kbId present issues no
request and leaves the state untouched. -/
theorem sendMessage_guard_spec_witness :
    sendMessage (some "kb1") "   " (.resolved ["x"]) ⟨[], false, ""⟩
      = (⟨[], false, ""⟩, false) :=
  (sendMessage_guard_spec (some "kb1") "   " (.resolved ["x"]) ⟨[], false, ""⟩).2
    (Or.inl (by decide))

/-- C9 counterexample: a request that rejects after streaming the chunk
par leaves streamingMessage holding par, not the empty string the claim
states, because the catch path of sendMessage never clears it. -/
theorem sendMessage_streaming_counterexample :
    ((sendMessage (some "kb1") "hi" (.rejected ["par"] "boom")
        ⟨[], false, ""⟩).1).streamingMessage ≠ "" := by decide

/-- C9 amended: for every sendMessage call that issues a chat request, after
the call settles isLoading is false, exactly one user message with the
trimmed content and exactly one assistant message were appended (in this
order, after the previous messages, which are preserved), the assistant
message is flagged isError exactly when the request threw, and
streamingMessage is empty when the request resolved but holds the
concatenation of the chunks delivered before the rejection when it threw. -/
theorem sendMessage_settled_spec (kbId : Option String) (content : String)
    (result : StreamResult) (s : ChatState)
    (hc : jsTrim content ≠ "") (hk : kbIdFalsy kbId = false) :
    ((sendMessage kbId content result s).1).isLoading = false
    ∧ ((sendMessage kbId content result s).1).messages.length = s.messages.length + 2
    ∧ ((sendMessage kbId content result s).1).messages.take s.messages.length = s.messages
    ∧ (((sendMessage kbId content result s).1).messages.drop s.messages.length).filter
        (fun m => m.role == "user") = [⟨jsTrim content, "user", false⟩]
    ∧ ((((sendMessage kbId content result s).1).messages.drop s.messages.length).filter
        (fun m => m.role == "assistant")).length = 1
    ∧ (∀ m ∈ ((sendMessage kbId content result s).1).messages.drop s.messages.length,
        m.role = "assistant" → m.isError = outcomeThrew result)
    ∧ ((sendMessage kbId content result s).1).streamingMessage =
        (if outcomeThrew result = true then String.join (deliveredChunks result) else "") := by
  unfold sendMessage
  cases result with
  | resolved chunks =>
    simp [hc, hk, outcomeThrew, deliveredChunks, List.take_left, List.drop_left,
      List.filter_cons, List.append_assoc]
  | rejected chunks errMsg =>
    simp [hc, hk, outcomeThrew, deliveredChunks, List.take_left, List.drop_left,
      List.filter_cons, List.append_assoc]

/-- C9 witness: a concrete issued request that resolves with two chunks. -/
theorem sendMessage_settled_spec_witness :
    ((sendMessage (some "kb1") " hi " (.resolved ["a", "b"])
        ⟨[], false, ""⟩).1).isLoading = false
    ∧ ((sendMessage (some "kb1") " hi " (.resolved ["a", "b"])
        ⟨[], false, ""⟩).1).messages.length = List.length ([] : List ChatMsg) + 2 :=
  ⟨(sendMessage_settled_spec (some "kb1") " hi " (.resolved ["a", "b"])
      ⟨[], false, ""⟩ (by decide) (by decide)).1,
   (sendMessage_settled_spec (some "kb1") " hi " (.resolved ["a", "b"])
      ⟨[], false, ""⟩ (by decide) (by decide)).2.1⟩

/-- Helper: closed form of the typewriter state after n ticks: the shown
text is the prefix of length min n (length of the text), and the effect is
complete once n exceeds the length of the text. -/
theorem twIter_eq (text : List Char) (n : ℕ) :
    twIter text n =
      ⟨text.take (min n text.length), decide (text.length < n), min n text.length⟩ := by
  induction n with
  | zero =>
    simp [twIter, twInit]
  | succ n ih =>
    rw [twIter, ih]
    unfold twStep
    by_cases h : n < text.length
    · have h1 : min n text.length = n := by omega
      have h2 : min (n + 1) text.length = n + 1 := by omega
      have h3 : ¬ text.length < n := by omega
      have h4 : ¬ text.length < n + 1 := by omega
      simp [h1, h2, h3, h4, h]
    · have h1 : min n text.length = text.length := by omega
      have h2 : min (n + 1) text.length = text.length := by omega
      have h4 : text.length < n + 1 := by omega
      simp [h1, h2, h4]

/-- C8: throughout the typewriter effect for a fixed non-empty text, the
shown text is at every tick a prefix of the text, its length never
decreases from one tick to the next, and whenever isComplete holds the
shown text is the whole text. -/
theorem useTypewriter_invariant (text : List Char) (_ht : text ≠ []) (n : ℕ) :
    (∃ rest, (twIter text n).display ++ rest = text)
    ∧ (twIter text n).display.length ≤ (twIter text (n + 1)).display.length
    ∧ ((twIter text n).complete = true → (twIter text n).display = text) := by
  simp only [twIter_eq]
  refine ⟨⟨text.drop (min n text.length), List.take_append_drop _ _⟩, ?_, ?_⟩
  · simp only [List.length_take]
    omega
  · intro hc
    simp only [decide_eq_true_eq] at hc
    have hmin : min n text.length = text.length := by omega
    rw [hmin, List.take_length]

/-- C8 witness: the invariant at the concrete text ab after three ticks. -/
theorem useTypewriter_invariant_witness :
    (∃ rest, (twIter "ab".toList 3).display ++ rest = "ab".toList)
    ∧ (twIter "ab".toList 3).display.length ≤ (twIter "ab".toList 4).display.length
    ∧ ((twIter "ab".toList 3).complete = true →
        (twIter "ab".toList 3).display = "ab".toList) :=
  useTypewriter_invariant "ab".toList (by decide) 3

/-- Helper: the splitter never returns an empty chunk sequence. -/
theorem splitTextGo_ne_nil (cs ov fuel : ℕ) (t : List Char) :
    splitTextGo cs ov fuel t ≠ [] := by
  cases fuel with
  | zero => simp [splitTextGo]
  | succ fuel =>
    unfold splitTextGo
    split <;> simp

/-- Helper: an input no longer than one chunk size is a single chunk. -/
theorem splitTextGo_short (cs ov fuel : ℕ) (t : List Char) (h : t.length ≤ cs) :
    splitTextGo cs ov fuel t = [t] := by
  cases fuel <;> simp [splitTextGo, h]

/-- Helper: dropping the overlap from every chunk and concatenating yields
the input without its first overlap characters. -/
theorem splitTextGo_flatten_drop (cs ov : ℕ) (hov : ov < cs) :
    ∀ fuel t, t.length ≤ fuel →
      ((splitTextGo cs ov fuel t).map (List.drop ov)).flatten = t.drop ov := by
  intro fuel
  induction fuel with
  | zero =>
    intro t htl
    have hnil : t = [] := List.length_eq_zero.mp (Nat.le_zero.mp htl)
    subst hnil
    simp [splitTextGo]
  | succ fuel ih =>
    intro t htl
    unfold splitTextGo
    by_cases h : t.length ≤ cs
    · simp [h]
    · have hrec := ih (t.drop (cs - ov)) (by simp only [List.length_drop]; omega)
      simp only [h, if_false, List.map_cons, List.flatten_cons, hrec]
      rw [List.drop_drop]
      have hsum : cs - ov + ov = cs := by omega
      rw [hsum, List.drop_take]
      have hfinal : List.drop (cs - ov) (List.drop ov t) = List.drop cs t := by
        rw [List.drop_drop]
        congr 1
        omega
      rw [← hfinal, List.take_append_drop]

/-- Helper: concatenating the chunks with the overlap of every later chunk
removed reconstructs the input exactly. -/
theorem splitTextGo_reconstruct (cs ov : ℕ) (hov : ov < cs) :
    ∀ fuel t, t.length ≤ fuel → removeOverlaps ov (splitTextGo cs ov fuel t) = t := by
  intro fuel t htl
  cases fuel with
  | zero =>
    have hnil : t = [] := List.length_eq_zero.mp (Nat.le_zero.mp htl)
    subst hnil
    simp [splitTextGo, removeOverlaps]
  | succ fuel =>
    unfold splitTextGo
    by_cases h : t.length ≤ cs
    · simp [h, removeOverlaps]
    · simp only [h, if_false, removeOverlaps]
      rw [splitTextGo_flatten_drop cs ov hov fuel (t.drop (cs - ov))
        (by simp only [List.length_drop]; omega)]
      rw [List.drop_drop]
      have hsum : cs - ov + ov = cs := by omega
      rw [hsum, List.take_append_drop]

/-- Helper: whenever the splitter produces at least two chunks, the input is
strictly longer than what one chunk plus the later steps minus one can
cover, which makes the chunk count minimal. -/
theorem splitTextGo_count_lb (cs ov : ℕ) (hov : ov < cs) :
    ∀ fuel t, t.length ≤ fuel → 2 ≤ (splitTextGo cs ov fuel t).length →
      cs + ((splitTextGo cs ov fuel t).length - 2) * (cs - ov) < t.length := by
  intro fuel
  induction fuel with
  | zero =>
    intro t htl h2
    simp [splitTextGo] at h2
  | succ fuel ih =>
    intro t htl h2
    by_cases h : t.length ≤ cs
    · rw [splitTextGo_short cs ov (fuel + 1) t h] at h2
      simp at h2
    · have hrest : splitTextGo cs ov (fuel + 1) t
          = t.take cs :: splitTextGo cs ov fuel (t.drop (cs - ov)) := by
        rw [splitTextGo]
        simp [h]
      rw [hrest] at h2 ⊢
      rw [List.length_cons] at h2 ⊢
      have hn1 : 1 ≤ (splitTextGo cs ov fuel (t.drop (cs - ov))).length :=
        List.length_pos.mpr (splitTextGo_ne_nil cs ov fuel (t.drop (cs - ov)))
      by_cases hcase : 2 ≤ (splitTextGo cs ov fuel (t.drop (cs - ov))).length
      · have hih := ih (t.drop (cs - ov)) (by simp only [List.length_drop]; omega) hcase
        simp only [List.length_drop] at hih
        obtain ⟨m, hm⟩ : ∃ m, (splitTextGo cs ov fuel (t.drop (cs - ov))).length = m + 2 :=
          ⟨(splitTextGo cs ov fuel (t.drop (cs - ov))).length - 2, by omega⟩
        rw [hm] at hih ⊢
        have harith1 : m + 2 - 2 = m := by omega
        have harith2 : m + 2 + 1 - 2 = m + 1 := by omega
        rw [harith1] at hih
        rw [harith2]
        have hmul : (m + 1) * (cs - ov) = m * (cs - ov) + (cs - ov) := by ring
        rw [hmul]
        omega
      · have hn : (splitTextGo cs ov fuel (t.drop (cs - ov))).length = 1 := by omega
        rw [hn]
        norm_num
        omega

/-- Helper: each later chunk contributes at most chunkSize - overlap
characters after overlap removal. -/
theorem flatten_drop_length_le (ov cs : ℕ) :
    ∀ rest : List (List Char), (∀ c ∈ rest, c.length ≤ cs) →
      ((rest.map (List.drop ov)).flatten).length ≤ rest.length * (cs - ov) := by
  intro rest
  induction rest with
  | nil => simp
  | cons c rest ih =>
    intro hlen
    simp only [List.map_cons, List.flatten_cons, List.length_append, List.length_cons,
      List.length_drop]
    have h1 : c.length ≤ cs := hlen c (by simp)
    have h2 := ih (fun d hd => hlen d (by simp [hd]))
    have hmul : (rest.length + 1) * (cs - ov) = rest.length * (cs - ov) + (cs - ov) := by
      ring
    rw [hmul]
    omega

/-- Helper: any chunk sequence whose chunks are bounded by the chunk size
reconstructs at most chunkSize plus chunkSize - overlap per additional
chunk. -/
theorem removeOverlaps_length_le (ov cs : ℕ) (chunks : List (List Char))
    (hlen : ∀ c ∈ chunks, c.length ≤ cs) :
    (removeOverlaps ov chunks).length ≤ cs + (chunks.length - 1) * (cs - ov) := by
  cases chunks with
  | nil => simp [removeOverlaps]
  | cons c rest =>
    simp only [removeOverlaps, List.length_append, List.length_cons]
    have h1 : c.length ≤ cs := hlen c (by simp)
    have h2 := flatten_drop_length_le ov cs rest (fun d hd => hlen d (by simp [hd]))
    have harith : rest.length + 1 - 1 = rest.length := by omega
    rw [harith]
    omega

/-- C7 (spec-modelled): for every input text and every valid configuration
with overlap < chunkSize, the splitter produces a non-empty chunk sequence;
concatenating the chunks with the overlapping region of each successive
chunk removed reconstructs the input exactly; an input no longer than one
chunk size yields exactly one chunk; the output (hence the chunk count) is
deterministic; and the chunk count is minimal among all non-empty chunk
sequences bounded by the chunk size that reconstruct the input the same
way. -/
theorem splitText_spec (cs ov : ℕ) (t : List Char) (hov : ov < cs) :
    splitText cs ov t ≠ []
    ∧ removeOverlaps ov (splitText cs ov t) = t
    ∧ (t.length ≤ cs → splitText cs ov t = [t])
    ∧ (∀ u : List Char, u = t → splitText cs ov u = splitText cs ov t)
    ∧ (∀ chunks : List (List Char), chunks ≠ [] →
        (∀ c ∈ chunks, c.length ≤ cs) → removeOverlaps ov chunks = t →
        (splitText cs ov t).length ≤ chunks.length) := by
  unfold splitText
  refine ⟨splitTextGo_ne_nil cs ov t.length t,
    splitTextGo_reconstruct cs ov hov t.length t le_rfl,
    fun h => splitTextGo_short cs ov t.length t h,
    fun u hu => by rw [hu],
    ?_⟩
  intro chunks hne hlen hrec
  by_contra hlt
  push_neg at hlt
  have hpos : 1 ≤ chunks.length := List.length_pos.mpr hne
  have h2 : 2 ≤ (splitTextGo cs ov t.length t).length := by omega
  have hlb := splitTextGo_count_lb cs ov hov t.length t le_rfl h2
  have hub := removeOverlaps_length_le ov cs chunks hlen
  rw [hrec] at hub
  have hmono : (chunks.length - 1) * (cs - ov)
      ≤ ((splitTextGo cs ov t.length t).length - 2) * (cs - ov) :=
    Nat.mul_le_mul_right _ (by omega)
  omega

/-- C7 witness: splitting abcde with chunk size 3 and overlap 1 gives a
non-empty chunk sequence that reconstructs abcde after overlap removal. -/
theorem splitText_spec_witness :
    removeOverlaps 1 (splitText 3 1 "abcde".toList) = "abcde".toList
    ∧ splitText 3 1 "abcde".toList ≠ [] :=
  ⟨(splitText_spec 3 1 "abcde".toList (by decide)).2.1,
   (splitText_spec 3 1 "abcde".toList (by decide)).1⟩

/-- Helper: a pair replacement whose opening character never occurs in the
string leaves the string unchanged. -/
theorem replacePairsGo_id (o : Char) (orest close wl wr : List Char) :
    ∀ fuel s, (∀ c ∈ s, c ≠ o) → replacePairsGo o orest close wl wr fuel s = s := by
  intro fuel
  induction fuel with
  | zero =>
    intro s _
    rfl
  | succ fuel ih =>
    intro s hs
    cases s with
    | nil => rfl
    | cons c cs =>
      have hco : c ≠ o := hs c (by simp)
      have hbeq : (o == c) = false := beq_eq_false_iff_ne.mpr (Ne.symm hco)
      have hpre : (o :: orest).isPrefixOf (c :: cs) = false := by
        simp [List.isPrefixOf, hbeq]
      simp only [replacePairsGo, hpre, Bool.false_eq_true, if_false]
      rw [ih cs (fun d hd => hs d (by simp [hd]))]

/-- Helper: the newline replacement leaves a newline-free string
unchanged. -/
theorem replaceNewlines_id :
    ∀ s : List Char, (∀ c ∈ s, c ≠ '\n') → replaceNewlines s = s := by
  intro s
  induction s with
  | nil =>
    intro _
    rfl
  | cons c cs ih =>
    intro hs
    have hc : ¬ c = '\n' := hs c (by simp)
    simp only [replaceNewlines, hc, if_false]
    rw [ih (fun d hd => hs d (by simp [hd]))]

/-- C10: formatContent is deterministic on every input, and on a message
content containing none of the star, backtick and newline characters it is
the identity. -/
theorem formatContent_plain_identity (s : List Char) :
    (∀ u : List Char, u = s → formatContent u = formatContent s)
    ∧ ((∀ c ∈ s, c ≠ '*' ∧ c ≠ '`' ∧ c ≠ '\n') → formatContent s = s) := by
  refine ⟨fun u hu => by rw [hu], fun h => ?_⟩
  unfold formatContent replacePairs
  rw [replacePairsGo_id '*' ['*'] ['*', '*'] _ _ s.length s (fun c hc => (h c hc).1)]
  rw [replacePairsGo_id '*' [] ['*'] _ _ s.length s (fun c hc => (h c hc).1)]
  rw [replacePairsGo_id '`' [] ['`'] _ _ s.length s (fun c hc => (h c hc).2.1)]
  exact replaceNewlines_id s (fun c hc => (h c hc).2.2)

/-- C10 witness: formatContent leaves the plain text hello world
unchanged. -/
theorem formatContent_plain_identity_witness :
    formatContent "hello world".toList = "hello world".toList :=
  (formatContent_plain_identity "hello world".toList).2 (by decide)

end DocuChat

